import Mathlib

/-!
Verification of the blockchain store (`src/index.js`).

The development is a shallow embedding of the relevant parts of the source.
Block hashes are modelled as natural numbers (the code treats `block.hash()`
as an opaque byte string produced by the external block codec).  The two
level-up databases are modelled per key namespace: `detail:`-prefixed JSON
records, decimal block-number keys, the literal `meta` key (all three live
in `detailsDb` and can never collide because of the prefixes), and the
block store keyed by raw bytes.  BN arithmetic is arbitrary precision, so
total difficulties are plain naturals.
-/

namespace Blockchain

/-- A block hash (an opaque byte string in the source, `hash.toString('hex')`
when used as a key; the hex string and the bytes identify each other 1-1). -/
abbrev Hash := Nat

/-- Keys of the block store.  `putBlock` stages the encoded block under the
raw buffer key with `keyEncoding: 'binary'`; `delBlock` stages its delete
under `blockhash.toString('hex')` with no key encoding, which is a
*different* level-up key.  Both key spaces are kept apart here. -/
inductive BlockKey where
  | bin (h : Hash)
  | hexStr (h : Hash)
deriving DecidableEq

/-- The view of a block used by `index.js`: `block.hash()`,
`block.header.parentHash`, `bufferToInt(block.header.number)`,
`bufferToInt(block.header.difficulty)` and `block.isGenesis()`.
Encoding/decoding is the identity at this level of abstraction
(`rlp.decode`/`serialize` round-trip through the external codec). -/
structure Block where
  hash : Hash
  parentHash : Hash
  number : Nat
  difficulty : Nat
  isGenesis : Bool
deriving DecidableEq

/-- Block details, stored at key `'detail:' + blockhash` (JSON).
Fields the code leaves `undefined` (`inChain` on a fresh non-head record,
iterator markers) are `false`/absent here, matching JS truthiness.
`markers` holds the per-consumer booleans set by `details[name] = true`. -/
structure Details where
  parent : Hash
  td : Nat
  number : Nat
  child : Option Hash
  staleChildren : List Hash
  genesis : Bool
  inChain : Bool
  markers : List String
deriving DecidableEq

/-- The meta record (`self.meta`, persisted under the `meta` key).
`_init` starts from `{ heads: {}, td: 0 }`; `rawHead`, `height` and
`genesis` are `undefined` until assigned, hence options. -/
structure MetaState where
  heads : List (String × Hash)
  rawHead : Option Hash := none
  height : Option Nat := none
  td : Nat := 0
  genesis : Option Hash := none
deriving DecidableEq

/-- `self.meta.heads[name]` (JS object property lookup). -/
def headsGet (hs : List (String × Hash)) (name : String) : Option Hash :=
  (hs.find? (fun p => p.1 == name)).map (fun p => p.2)

/-- `self.meta.heads[name] = v` (JS object property assignment). -/
def headsSet (hs : List (String × Hash)) (name : String) (v : Hash) : List (String × Hash) :=
  if hs.any (fun p => p.1 == name) then
    hs.map (fun p => if p.1 == name then (name, v) else p)
  else
    hs ++ [(name, v)]

/-- One staged database operation (`dbOps` entries fed to `_batchDbOps`).
The `value` fields record the object contents at commit time: in the source
the staged op holds a live reference to the JS object, so mutations made
after `dbOps.push` (e.g. `blockDetails.inChain = true`,
`self.meta.genesis = ...`, `parentDetails.inChain = true`) are part of the
value that the batch eventually writes. -/
inductive DbOp where
  | putDetail (hash : Hash) (value : Details)
  | putBlockData (hash : Hash) (value : Block)
  | putNumberIndex (number : Int) (hash : Hash)
  | putMeta (value : MetaState)
  | delDetail (hash : Hash)
  | delBlockData (hash : Hash)
deriving DecidableEq

/-- `true` for the staged `meta` write. -/
def DbOp.isMetaWrite : DbOp → Bool
  | .putMeta _ => true
  | _ => false

/-- `true` for a staged number-index write. -/
def DbOp.isNumberIndexWrite : DbOp → Bool
  | .putNumberIndex _ _ => true
  | _ => false

/-- The persistent state of the two stores.  `details` is the
`'detail:'+hash` namespace of `detailsDb`, `numberIndex` its decimal-key
namespace (an `Int` because `getBlocks` can walk below zero in reverse;
level-up stringifies the number and finds nothing there), `metaRec` the
`meta` key, and `blocks` the block store. -/
structure Stores where
  details : Hash → Option Details
  numberIndex : Int → Option Hash
  blocks : BlockKey → Option Block
  metaRec : Option MetaState

/-- Applying one committed operation (`_batchDbOps` partitions by store and
each store applies its batch in order; the namespaces are disjoint, so
sequential application is equivalent). -/
def applyOp (st : Stores) (op : DbOp) : Stores :=
  match op with
  | .putDetail h d => { st with details := fun x => if x = h then some d else st.details x }
  | .putBlockData h b => { st with blocks := fun k => if k = BlockKey.bin h then some b else st.blocks k }
  | .putNumberIndex n h => { st with numberIndex := fun m => if m = n then some h else st.numberIndex m }
  | .putMeta m => { st with metaRec := some m }
  | .delDetail h => { st with details := fun x => if x = h then none else st.details x }
  | .delBlockData h => { st with blocks := fun k => if k = BlockKey.hexStr h then none else st.blocks k }

/-- Committing a staged batch. -/
def applyOps (st : Stores) (ops : List DbOp) : Stores :=
  ops.foldl applyOp st

/-- `_rebuildBlockchain(hash, parentHash, parentDetails, ops, cb)`:
walks parents re-linking `child` pointers until it reaches a block already
`inChain`.  All reads go to the store as it was before the put (the batch
commits only at the end).  `fuel` bounds the recursion (the source recurses
on the parent chain and would itself loop on a malformed cyclic store).
A missing number-index entry at the parent's height is a level-up
not-found error, which `loadNumberIndex` propagates, aborting the put. -/
def rebuildBlockchain (st : Stores) (fuel : Nat) (hash parentHash : Hash)
    (parentDetails : Details) : Except String (List DbOp) :=
  match fuel with
  | 0 => .error "rebuild recursion limit"
  | fuel + 1 =>
    let pd1 := { parentDetails with staleChildren := parentDetails.staleChildren.erase hash }
    let pd2 :=
      match pd1.child with
      | some c =>
        if c ≠ hash then { pd1 with staleChildren := pd1.staleChildren ++ [c], child := some hash }
        else { pd1 with child := some hash }
      | none => { pd1 with child := some hash }
    if pd2.inChain then
      .ok [DbOp.putDetail parentHash pd2]
    else
      let pd3 := { pd2 with inChain := true }
      match st.numberIndex (pd3.number : Int) with
      | none => .error "number index entry not found"
      | some staleHash =>
        match st.details staleHash with
        | none => .error "stale details not found"
        | some sd =>
          let sd2 := { sd with inChain := false }
          match st.details pd3.parent with
          | none => .error "grandparent details not found"
          | some ppd =>
            match rebuildBlockchain st fuel parentHash pd3.parent ppd with
            | .error e => .error e
            | .ok rest =>
              .ok ([DbOp.putDetail parentHash pd3,
                    DbOp.putNumberIndex (sd2.number : Int) parentHash,
                    DbOp.putDetail staleHash sd2] ++ rest)

/-- `_putBlock(block, cb, isGenesis)`.  The two external delegations
(`block.validate` and `vapash.verifyPOW`) are collaborator calls (spec §6)
and are taken as succeeding; the local genesis-duplication check is kept.
Returns the staged batch and the in-memory `self.meta` after the call.
JS reference aliasing is resolved by staging final object values (see
`DbOp`).  The parent's `staleChildren` push from `rebuildInfo` happens on
the same object that is later persisted or handed to the rebuilder. -/
def putBlockModel (validate : Bool) (st : Stores) (meta : MetaState) (block : Block)
    (isGenesis : Bool) (fuel : Nat) : Except String (List DbOp × MetaState) :=
  if validate && !isGenesis && block.isGenesis then
    .error "already have genesis set"
  else
    match (if isGenesis then .ok none
           else match st.details block.parentHash with
                | some d => .ok (some d)
                | none => .error "parent hash not found" :
           Except String (Option Details)) with
    | .error e => .error e
    | .ok parentDetails? =>
      let totalDifficulty := block.difficulty +
        (match parentDetails? with | some p => p.td | none => 0)
      let blockDetails0 : Details :=
        { parent := block.parentHash, td := totalDifficulty, number := block.number,
          child := none, staleChildren := [], genesis := block.isGenesis,
          inChain := false, markers := [] }
      if block.isGenesis || decide (meta.td < totalDifficulty) then
        let blockDetails := { blockDetails0 with inChain := true }
        let meta1 :=
          { meta with
            rawHead := some block.hash
            height := some block.number
            td := totalDifficulty }
        if block.isGenesis then
          let meta2 := { meta1 with genesis := some block.hash }
          .ok ([DbOp.putDetail block.hash blockDetails,
                DbOp.putBlockData block.hash block,
                DbOp.putNumberIndex (block.number : Int) block.hash,
                DbOp.putMeta meta2], meta2)
        else
          match parentDetails? with
          | none =>
            -- a `putGenesis` of a non-genesis block reaches `_rebuildBlockchain`
            -- with `parentDetails` undefined and crashes there
            .error "TypeError: cannot read staleChildren of undefined"
          | some pd =>
            let pd' := { pd with staleChildren := pd.staleChildren ++ [block.hash] }
            match rebuildBlockchain st fuel block.hash block.parentHash pd' with
            | .error e => .error e
            | .ok rest =>
              .ok ([DbOp.putDetail block.hash blockDetails,
                    DbOp.putBlockData block.hash block,
                    DbOp.putNumberIndex (block.number : Int) block.hash,
                    DbOp.putMeta meta1] ++ rest, meta1)
      else
        match parentDetails? with
        | none =>
          -- a `putGenesis` of a non-genesis, non-winning block stages an
          -- undefined parent record, which the batch cannot persist
          .error "cannot persist undefined parent details"
        | some pd =>
          let pd' := { pd with staleChildren := pd.staleChildren ++ [block.hash] }
          .ok ([DbOp.putDetail block.hash blockDetails0,
                DbOp.putBlockData block.hash block,
                DbOp.putDetail block.parentHash pd'], meta)

/-- The total difficulty the put recorded for the new block: the value of
the first staged op, which `rebuildInfo` always makes the block's own
detail record. -/
def tdOfOps (ops : List DbOp) : Nat :=
  match ops.head? with
  | some (DbOp.putDetail _ d) => d.td
  | _ => 0

/-- The `(hash, totalDifficulty)` of the first staged detail write. -/
def headDetailTd (ops : List DbOp) : Option (Hash × Nat) :=
  match ops.head? with
  | some (DbOp.putDetail h d) => some (h, d.td)
  | _ => none

/-- The `inChain` flag of the first staged detail write. -/
def headInChain (ops : List DbOp) : Bool :=
  match ops.head? with
  | some (DbOp.putDetail _ d) => d.inChain
  | _ => false

/-- `putBlocks` through the shared semaphore: sequential `putBlock` calls,
each committing its batch before the next starts, stopping at the first
failure.  Also returns the total difficulty recorded for each block. -/
def runPuts (validate : Bool) (fuel : Nat) :
    Stores → MetaState → List (Block × Bool) → Except String (Stores × MetaState × List Nat)
  | st, _meta, [] => .ok (st, _meta, [])
  | st, meta, (b, isG) :: rest =>
    (putBlockModel validate st meta b isG fuel).bind fun r =>
      (runPuts validate fuel (applyOps st r.1) r.2 rest).bind fun r2 =>
        .ok (r2.1, r2.2.1, tdOfOps r.1 :: r2.2.2)

/-- `getBlock` argument: a hash buffer or an integer block number
(`Buffer.isBuffer` / `Number.isInteger` dispatch). -/
inductive BlockTag where
  | hash (h : Hash)
  | number (n : Int)
deriving DecidableEq

/-- `lookupByHash`: `blockDb.get(hash, { keyEncoding: 'binary' })`, decoding
the stored bytes. -/
def getBlockByHashBin (st : Stores) (h : Hash) : Except String Block :=
  match st.blocks (BlockKey.bin h) with
  | some b => .ok b
  | none => .error "NotFoundError"

/-- `getBlock(blockTag, cb)`: by hash directly, by number through the
number index first. -/
def getBlockModel (st : Stores) (tag : BlockTag) : Except String Block :=
  match tag with
  | .hash h => getBlockByHashBin st h
  | .number n =>
    match st.numberIndex n with
    | none => .error "NotFoundError"
    | some h => getBlockByHashBin st h

/-- The recursive `nextBlock` closure of `getBlocks`: `blocks` is the
accumulator, `i` the visit counter (already incremented, so the first call
is `i = 0`).  Any lookup error ends the walk with `cb(null, blocks)`.
`fuel` bounds the recursion; `none` means the walk has not finished within
`fuel` steps (the source has no bound of its own). -/
def getBlocksLoop (st : Stores) (maxBlocks skip : Nat) (reverse : Bool) :
    Nat → BlockTag → List Block → Nat → Option (Except String (List Block))
  | 0, _, _, _ => none
  | fuel + 1, tag, blocks, i =>
    match getBlockModel st tag with
    | .error _ => some (.ok blocks)
    | .ok block =>
      let nextNumber : Int := (block.number : Int) + (if reverse then -1 else 1)
      if i ≠ 0 ∧ skip ≠ 0 ∧ i % (skip + 1) ≠ 0 then
        getBlocksLoop st maxBlocks skip reverse fuel (BlockTag.number nextNumber) blocks (i + 1)
      else
        let blocks2 := blocks ++ [block]
        if blocks2.length = maxBlocks then some (.ok blocks2)
        else getBlocksLoop st maxBlocks skip reverse fuel (BlockTag.number nextNumber) blocks2 (i + 1)

/-- `getBlocks(blockId, maxBlocks, skip, reverse, cb)`. -/
def getBlocksModel (st : Stores) (blockId : BlockTag) (maxBlocks skip : Nat)
    (reverse : Bool) (fuel : Nat) : Option (Except String (List Block)) :=
  getBlocksLoop st maxBlocks skip reverse fuel blockId [] 0

/-- The walk of `getBlocksLoop` never returns at all: every fuel bound is
exhausted (models a non-terminating `getBlocks` run). -/
def getBlocksNeverReturns (st : Stores) (maxBlocks skip : Nat) (reverse : Bool) : Prop :=
  ∀ fuel tag blocks i, getBlocksLoop st maxBlocks skip reverse fuel tag blocks i = none

/-- `selectNeededHashes(hashes, cb)`.  The `async.whilst` test is
`max >= min` with `max = hashes.length - 1`, `min = 0`, so the body runs
iff the list is non-empty; the body calls `self.getBlockInfo(...)`, but
`Blockchain` has no `getBlockInfo` method (the method carrying that doc
name is `getDetails`), so the first iteration throws a TypeError.  Only
the empty list reaches `cb(null, hashes.slice(0))`. -/
def selectNeededHashes (hashes : List Hash) : Except String (List Hash) :=
  if 1 ≤ hashes.length then .error "TypeError: self.getBlockInfo is not a function"
  else .ok []

/-- `_delBlock(blockhash, dbOps, resetHeads, cb)`: stages the two deletes,
collects the named heads pointing at this hash, and recurses into
`details.child`.  The stale-children pass guards on `details.staleChildren`
but iterates `details.staleChildern` (misspelled), which is `undefined`;
`async.each` over it visits nothing, so stale children are never deleted.
The staged block delete carries the hex-string key (see `DbOp`). -/
def delBlockRec (st : Stores) (heads : List (String × Hash)) (fuel : Nat) (h : Hash) :
    Except String (List DbOp × List String) :=
  match fuel with
  | 0 => .error "delete recursion limit"
  | fuel + 1 =>
    let ops0 := [DbOp.delDetail h, DbOp.delBlockData h]
    match st.details h with
    | none => .error "NotFoundError"
    | some d =>
      let rh := (heads.filter (fun p => p.2 = h)).map (fun p => p.1)
      match d.child with
      | some c =>
        match delBlockRec st heads fuel c with
        | .error e => .error e
        | .ok (ops1, rh1) => .ok (ops0 ++ ops1, rh ++ rh1)
      | none => .ok (ops0, rh)

/-- `delBlock(blockhash, cb)`: builds the delete batch, re-reads the
target's details (the batch has not committed yet), resets `rawHead` to the
parent when the target was in-chain, rewinds the collected named heads to
the same parent, and commits the batch. -/
def delBlockModel (st : Stores) (meta : MetaState) (h : Hash) (fuel : Nat) :
    Except String (Stores × MetaState) :=
  match delBlockRec st meta.heads fuel h with
  | .error e => .error e
  | .ok (ops, resetHeads) =>
    match st.details h with
    | none => .error "NotFoundError"
    | some details =>
      let meta1 := if details.inChain then { meta with rawHead := some details.parent } else meta
      let meta2 :=
        { meta1 with
          heads := resetHeads.foldl (fun hs n => headsSet hs n details.parent) meta1.heads }
      .ok (applyOps st ops, meta2)

/-- `details[name] = true` inside the iterator's `saveDetails`. -/
def markDetail (d : Details) (name : String) : Details :=
  if d.markers.contains name then d else { d with markers := d.markers ++ [name] }

/-- The `async.whilst` loop of `_iterator`.  A failing step sets
`blockhash = false` and hands the error to the final callback, which
ignores it and still saves meta, so step errors end the run as a success.
`lastBlock` is the previously delivered block; `acc` the deliveries
`(block, reorg)` handed to the consumer, whose callback is taken as
succeeding.  `none` means fuel ran out. -/
def iterLoop (name : String) :
    Nat → Stores → MetaState → Option Block → List (Block × Bool) → Option Hash →
    Option (Stores × MetaState × List (Block × Bool))
  | 0, _, _, _, _, _ => none
  | _ + 1, st, meta, _, acc, none =>
    some ({ st with metaRec := some meta }, meta, acc)
  | fuel + 1, st, meta, lastBlock, acc, some bh =>
    match st.details bh with
    | none => some ({ st with metaRec := some meta }, meta, acc)
    | some d =>
      let meta1 := { meta with heads := headsSet meta.heads name bh }
      match st.blocks (BlockKey.bin bh) with
      | none => some ({ st with metaRec := some meta1 }, meta1, acc)
      | some b =>
        let reorg :=
          match lastBlock with
          | some lb => decide (lb.hash ≠ b.parentHash)
          | none => false
        let d2 := markDetail d name
        let st2 := applyOps st [DbOp.putDetail bh d2, DbOp.putMeta meta1]
        iterLoop name fuel st2 meta1 (some b) (acc ++ [(b, reorg)]) d.child

/-- `_iterator(name, func, cb)` entered at a concrete start hash:
loads the start's details (the `if (err) cb(err)` there lacks a `return`
and the code then crashes reading `d.child`, modelled as the error) and
walks from `d.child`. -/
def iteratorStart (st : Stores) (meta : MetaState) (name : String) (h : Hash) (fuel : Nat) :
    Option (Except String (Stores × MetaState × List (Block × Bool))) :=
  match st.details h with
  | none => some (.error "NotFoundError")
  | some d => (iterLoop name fuel st meta none [] d.child).map Except.ok

/-- `_iterator`: start at `heads[name] || genesis`; with neither set the
callback fires immediately and nothing is read or written. -/
def iteratorModel (st : Stores) (meta : MetaState) (name : String) (fuel : Nat) :
    Option (Except String (Stores × MetaState × List (Block × Bool))) :=
  match (headsGet meta.heads name).orElse (fun _ => meta.genesis) with
  | none => some (.ok (st, meta, []))
  | some h => iteratorStart st meta name h fuel

/-- The delivery list of a finished, error-free iterator run. -/
def iterDeliveries (r : Option (Except String (Stores × MetaState × List (Block × Bool)))) :
    Option (List (Block × Bool)) :=
  match r with
  | some (.ok (_, _, ds)) => some ds
  | _ => none

/-- The reorg contract of claim C9 over a delivery list: the first
delivered block carries `reorg = false`, and each later one carries
`reorg = true` exactly when the previously delivered block's hash differs
from its recorded parent hash. -/
def reorgFlagsOk (ds : List (Block × Bool)) : Prop :=
  (∀ x, ds.get? 0 = some x → x.2 = false) ∧
  (∀ k x y, ds.get? k = some x → ds.get? (k + 1) = some y →
    y.2 = decide (x.1.hash ≠ y.1.parentHash))

/-- `getHead(name, cb)` after the init gate:
`var hash = self.meta.heads[name] || self.meta.rawHead`, erroring with
`No head found.` when both are unset, else a binary-key block lookup. -/
def getHeadModel (st : Stores) (meta : MetaState) (name : String) : Except String Block :=
  match (headsGet meta.heads name).orElse (fun _ => meta.rawHead) with
  | none => .error "No head found."
  | some h => getBlockByHashBin st h

/-- `getHead(cb)`: the one-argument form shifts `cb` and uses the name
`vm`. -/
def getHeadDefaultName (st : Stores) (meta : MetaState) : Except String Block :=
  getHeadModel st meta "vm"

/-- The public operations of `module.exports = Blockchain`. -/
inductive PublicOp where
  | putGenesis
  | putBlock
  | putBlocks
  | getHead
  | getBlock
  | getBlocks
  | getDetails
  | putDetails
  | selectNeededHashes
  | delBlock
  | iterate
deriving DecidableEq

/-- Whether the operation's body waits on `self._initLock.await` before
touching the stores (directly, or through the operation it delegates to:
`putGenesis` and `putBlocks` run through `putBlock`, which awaits;
`getBlocks` runs through `getBlock`, which does not).  Read off the source:
`putBlock` (line 143), `getHead` (line 108) and `iterator` (line 637) are
the only bodies that await the stoplight. -/
def awaitsInitGate : PublicOp → Bool
  | .putGenesis => true
  | .putBlock => true
  | .putBlocks => true
  | .getHead => true
  | .iterate => true
  | .getBlock => false
  | .getBlocks => false
  | .getDetails => false
  | .putDetails => false
  | .selectNeededHashes => false
  | .delBlock => false

/-! ### Concrete fixtures -/

/-- Fresh stores: both level-up databases empty. -/
def stEmpty : Stores :=
  { details := fun _ => none, numberIndex := fun _ => none,
    blocks := fun _ => none, metaRec := none }

/-- The default meta synthesized by `_init` on lookup failure:
`{ heads: {}, td: 0 }`. -/
def meta0 : MetaState := { heads := [] }

/-- A genesis block of difficulty 10. -/
def gBlock : Block :=
  { hash := 1, parentHash := 0, number := 0, difficulty := 10, isGenesis := true }

/-- A child of the genesis with difficulty 5 (total difficulty 15). -/
def aBlock : Block :=
  { hash := 2, parentHash := 1, number := 1, difficulty := 5, isGenesis := false }

/-- A second genesis block of difficulty 3. -/
def g2Block : Block :=
  { hash := 3, parentHash := 0, number := 0, difficulty := 3, isGenesis := true }

/-- A child of the genesis with difficulty 0 (total difficulty 10:
it exactly ties with the head). -/
def bLose : Block :=
  { hash := 5, parentHash := 1, number := 1, difficulty := 0, isGenesis := false }

/-- The genesis detail record as `putBlock` stages it. -/
def gDetails : Details :=
  { parent := 0, td := 10, number := 0, child := none, staleChildren := [],
    genesis := true, inChain := true, markers := [] }

/-- Stores holding exactly the ingested genesis `gBlock`. -/
def stG : Stores :=
  { details := fun h => if h = 1 then some gDetails else none,
    numberIndex := fun n => if n = 0 then some 1 else none,
    blocks := fun k => if k = BlockKey.bin 1 then some gBlock else none,
    metaRec := none }

/-- Meta after ingesting `gBlock` into fresh stores. -/
def metaG : MetaState :=
  { heads := [], rawHead := some 1, height := some 0, td := 10, genesis := some 1 }

/-- The batch staged when `bLose` is put on top of `stG`/`metaG`
(the tie-losing sibling path). -/
def opsLose : List DbOp :=
  [DbOp.putDetail 5
    { parent := 1, td := 10, number := 1, child := none, staleChildren := [],
      genesis := false, inChain := false, markers := [] },
   DbOp.putBlockData 5 bLose,
   DbOp.putDetail 1 { gDetails with staleChildren := [5] }]

/-! ### Helper lemmas on the ingestion pipeline -/

/-- A successful non-genesis-block put moves `meta.td` to the maximum of the
old value and the total difficulty it recorded for the block. -/
theorem putBlockModel_td_max (validate : Bool) (st : Stores) (meta : MetaState)
    (block : Block) (isGenesis : Bool) (fuel : Nat) (ops : List DbOp) (meta1 : MetaState)
    (hok : putBlockModel validate st meta block isGenesis fuel = .ok (ops, meta1))
    (hng : block.isGenesis = false) :
    meta1.td = max meta.td (tdOfOps ops) := by
  unfold putBlockModel at hok
  rw [hng] at hok
  simp only [Bool.and_false, Bool.false_eq_true, if_false, Bool.false_or] at hok
  by_cases hg : isGenesis = true
  · rw [if_pos hg] at hok
    simp only at hok
    split at hok <;> simp at hok
  · rw [if_neg hg] at hok
    cases hpd : st.details block.parentHash with
    | none => rw [hpd] at hok; simp at hok
    | some pd =>
      rw [hpd] at hok
      simp only at hok
      by_cases hlt : meta.td < block.difficulty + pd.td
      · rw [if_pos (by exact decide_eq_true hlt)] at hok
        cases hr : rebuildBlockchain st fuel block.hash block.parentHash
            { pd with staleChildren := pd.staleChildren ++ [block.hash] } with
        | error e => rw [hr] at hok; simp at hok
        | ok rest =>
          rw [hr] at hok
          simp only [Except.ok.injEq, Prod.mk.injEq] at hok
          obtain ⟨hops, hmeta⟩ := hok
          rw [← hops, ← hmeta]
          simp only [tdOfOps, List.cons_append, List.head?_cons]
          exact (Nat.max_eq_right hlt.le).symm
      · rw [if_neg (by simpa using hlt)] at hok
        simp only [Except.ok.injEq, Prod.mk.injEq] at hok
        obtain ⟨hops, hmeta⟩ := hok
        rw [← hops, ← hmeta]
        simp only [tdOfOps, List.head?_cons]
        exact (Nat.max_eq_left (Nat.le_of_not_lt hlt)).symm

/-- C1: a successfully ingested non-genesis block becomes the new `rawHead`
— its staged detail record carries `inChain` and meta gets its hash, height
and total difficulty — exactly when its computed total difficulty strictly
exceeds the current `meta.td`; at equal total difficulty meta is untouched
and no meta or number-index write is staged (no reorganization). -/
theorem c1_forkChoice_strict (validate : Bool) (st : Stores) (meta : MetaState)
    (block : Block) (pd : Details) (fuel : Nat) (ops : List DbOp) (meta1 : MetaState)
    (hpd : st.details block.parentHash = some pd)
    (hng : block.isGenesis = false)
    (hok : putBlockModel validate st meta block false fuel = .ok (ops, meta1)) :
    ((headInChain ops = true ∧ meta1.rawHead = some block.hash ∧
      meta1.height = some block.number ∧ meta1.td = block.difficulty + pd.td) ↔
      meta.td < block.difficulty + pd.td)
    ∧ (block.difficulty + pd.td = meta.td →
        meta1 = meta ∧
        ops.all (fun op => !op.isMetaWrite && !op.isNumberIndexWrite) = true) := by
  unfold putBlockModel at hok
  rw [hng, hpd] at hok
  simp only [Bool.and_false, Bool.false_eq_true, if_false, Bool.false_or,
    Bool.not_false, Bool.and_true] at hok
  by_cases hlt : meta.td < block.difficulty + pd.td
  · rw [if_pos (by exact decide_eq_true hlt)] at hok
    cases hr : rebuildBlockchain st fuel block.hash block.parentHash
        { pd with staleChildren := pd.staleChildren ++ [block.hash] } with
    | error e => rw [hr] at hok; simp at hok
    | ok rest =>
      rw [hr] at hok
      simp only [Except.ok.injEq, Prod.mk.injEq] at hok
      obtain ⟨hops, hmeta⟩ := hok
      constructor
      · constructor
        · exact fun _ => hlt
        · intro _
          refine ⟨?_, ?_, ?_, ?_⟩ <;>
            simp [← hops, ← hmeta, headInChain]
      · intro heq
        exact absurd hlt (by rw [heq]; exact lt_irrefl _)
  · rw [if_neg (by simpa using hlt)] at hok
    simp only [Except.ok.injEq, Prod.mk.injEq] at hok
    obtain ⟨hops, hmeta⟩ := hok
    constructor
    · constructor
      · rintro ⟨h1, -, -, -⟩
        rw [← hops] at h1
        simp [headInChain] at h1
      · intro h
        exact absurd h hlt
    · intro _
      refine ⟨hmeta.symm, ?_⟩
      rw [← hops]
      simp [DbOp.isMetaWrite, DbOp.isNumberIndexWrite]

/-- C1 witness: the tie case at equal total difficulty (10 = 10) on
concrete stores: the fork-choice clauses evaluate as the theorem states. -/
theorem c1_forkChoice_strict_witness :
    ((headInChain opsLose = true ∧ metaG.rawHead = some bLose.hash ∧
      metaG.height = some bLose.number ∧ metaG.td = bLose.difficulty + gDetails.td) ↔
      metaG.td < bLose.difficulty + gDetails.td)
    ∧ (bLose.difficulty + gDetails.td = metaG.td →
        metaG = metaG ∧
        opsLose.all (fun op => !op.isMetaWrite && !op.isNumberIndexWrite) = true) :=
  c1_forkChoice_strict false stG metaG bLose gDetails 3 opsLose metaG rfl rfl rfl

/-- C7: a non-genesis block whose total difficulty does not exceed the
current `meta.td` stages exactly its own detail record, its own encoded
block, and the parent record with the new hash appended to
`staleChildren`; meta is returned unchanged (so `rawHead`, `height`,
`totalDifficulty` and every number-index entry are untouched). -/
theorem c7_sibling_frame (validate : Bool) (st : Stores) (meta : MetaState)
    (block : Block) (pd : Details) (fuel : Nat) (ops : List DbOp) (meta1 : MetaState)
    (hpd : st.details block.parentHash = some pd)
    (hng : block.isGenesis = false)
    (hle : block.difficulty + pd.td ≤ meta.td)
    (hok : putBlockModel validate st meta block false fuel = .ok (ops, meta1)) :
    ops = [DbOp.putDetail block.hash
             { parent := block.parentHash, td := block.difficulty + pd.td,
               number := block.number, child := none, staleChildren := [],
               genesis := false, inChain := false, markers := [] },
           DbOp.putBlockData block.hash block,
           DbOp.putDetail block.parentHash
             { pd with staleChildren := pd.staleChildren ++ [block.hash] }]
    ∧ meta1 = meta := by
  unfold putBlockModel at hok
  rw [hng, hpd] at hok
  simp only [Bool.and_false, Bool.false_eq_true, if_false, Bool.false_or,
    Bool.not_false, Bool.and_true] at hok
  rw [if_neg (by simpa using Nat.not_lt.mpr hle)] at hok
  simp only [Except.ok.injEq, Prod.mk.injEq] at hok
  exact ⟨hok.1.symm, hok.2.symm⟩

/-- C7 witness: the concrete tie-losing put of `bLose` stages exactly the
three sibling writes and leaves meta unchanged. -/
theorem c7_sibling_frame_witness :
    opsLose = [DbOp.putDetail bLose.hash
                 { parent := bLose.parentHash, td := bLose.difficulty + gDetails.td,
                   number := bLose.number, child := none, staleChildren := [],
                   genesis := false, inChain := false, markers := [] },
               DbOp.putBlockData bLose.hash bLose,
               DbOp.putDetail bLose.parentHash
                 { gDetails with staleChildren := gDetails.staleChildren ++ [bLose.hash] }]
    ∧ metaG = metaG :=
  c7_sibling_frame false stG metaG bLose gDetails 3 opsLose metaG rfl rfl (by decide) rfl

/-- C8: every accepted put stages, as its first operation, the block's own
detail record whose recorded total difficulty is the block's difficulty
plus the parent's recorded total difficulty, the parent term being zero
for a genesis put. -/
theorem c8_td_sum (validate : Bool) (st : Stores) (meta : MetaState)
    (block : Block) (isGenesis : Bool) (pd : Details) (fuel : Nat)
    (ops : List DbOp) (meta1 : MetaState)
    (hpd : isGenesis = false → st.details block.parentHash = some pd)
    (hok : putBlockModel validate st meta block isGenesis fuel = .ok (ops, meta1)) :
    headDetailTd ops = some (block.hash, block.difficulty + (if isGenesis then 0 else pd.td)) := by
  unfold putBlockModel at hok
  by_cases hg : isGenesis = true
  · rw [hg] at hok ⊢
    simp only [Bool.not_true, Bool.and_false, Bool.false_and, Bool.false_eq_true,
      if_false, if_true] at hok ⊢
    by_cases hbg : block.isGenesis = true
    · rw [hbg] at hok
      simp only [Bool.true_or, if_true] at hok
      simp only [Except.ok.injEq, Prod.mk.injEq] at hok
      try obtain ⟨hops, -⟩ := hok
      try rw [← hops]
      simp [headDetailTd]
    · rw [Bool.not_eq_true] at hbg
      rw [hbg] at hok
      simp only [Bool.false_or] at hok
      split at hok <;> simp at hok
  · rw [Bool.not_eq_true] at hg
    rw [hg] at hok ⊢
    rw [hpd hg] at hok
    simp only [Bool.not_false, Bool.and_true, Bool.false_eq_true, if_false] at hok ⊢
    split at hok
    · -- the genesis-duplication rejection fired
      simp at hok
    · by_cases hbg : block.isGenesis = true
      · rw [hbg] at hok
        simp only [Bool.true_or, if_true] at hok
        simp only [Except.ok.injEq, Prod.mk.injEq] at hok
        try obtain ⟨hops, -⟩ := hok
        try rw [← hops]
        simp [headDetailTd]
      · rw [Bool.not_eq_true] at hbg
        rw [hbg] at hok
        simp only [Bool.false_or] at hok
        split at hok
        · cases hr : rebuildBlockchain st fuel block.hash block.parentHash
              { pd with staleChildren := pd.staleChildren ++ [block.hash] } with
          | error e => rw [hr] at hok; simp at hok
          | ok rest =>
            rw [hr] at hok
            simp only [Except.ok.injEq, Prod.mk.injEq] at hok
            try obtain ⟨hops, -⟩ := hok
            try rw [← hops]
            simp [headDetailTd]
        · simp only [Except.ok.injEq, Prod.mk.injEq] at hok
          try obtain ⟨hops, -⟩ := hok
          try rw [← hops]
          simp [headDetailTd]

/-- C8 witness: the concrete put of `bLose` records total difficulty
0 + 10 for it, its own difficulty plus the parent's recorded total. -/
theorem c8_td_sum_witness :
    headDetailTd opsLose =
      some (bLose.hash, bLose.difficulty + (if false then 0 else gDetails.td)) :=
  c8_td_sum false stG metaG bLose false gDetails 3 opsLose metaG (fun _ => rfl) rfl

/-- A successful sequential run is successful on every prefix (the run
aborts at the first failing put, so earlier puts all succeeded). -/
theorem runPuts_take_ok (validate : Bool) (fuel : Nat) (pre suf : List (Block × Bool)) :
    ∀ st meta, (runPuts validate fuel st meta (pre ++ suf)).isOk = true →
    ∃ st1 m1 tds1, runPuts validate fuel st meta pre = .ok (st1, m1, tds1) := by
  induction pre with
  | nil => exact fun st meta _ => ⟨st, meta, [], rfl⟩
  | cons p rest ih =>
    intro st meta h
    obtain ⟨b, isG⟩ := p
    simp only [List.cons_append, runPuts, List.append_eq] at h ⊢
    cases hp : putBlockModel validate st meta b isG fuel with
    | error e =>
      try rw [hp] at h
      simp [Except.bind, Except.isOk, Except.toBool] at h
    | ok r =>
      obtain ⟨ops, meta1⟩ := r
      try rw [hp] at h
      try rw [hp]
      simp only [Except.bind] at h ⊢
      have hrec : (runPuts validate fuel (applyOps st ops) meta1 (rest ++ suf)).isOk = true := by
        cases hr : runPuts validate fuel (applyOps st ops) meta1 (rest ++ suf) with
        | error e =>
          try rw [hr] at h
          simp [Except.bind, Except.isOk, Except.toBool] at h
        | ok r2 => simp [Except.isOk, Except.toBool]
      obtain ⟨st1, m1, tds1, h1⟩ := ih (applyOps st ops) meta1 hrec
      rw [h1]
      exact ⟨st1, m1, tdOfOps ops :: tds1, rfl⟩

/-- Along a successful run of non-genesis blocks, the final `meta.td` is
the running maximum of the initial one and every recorded total
difficulty. -/
theorem runPuts_ok_td_max (validate : Bool) (fuel : Nat) (pre : List (Block × Bool)) :
    ∀ st meta st1 m1 tds1, runPuts validate fuel st meta pre = .ok (st1, m1, tds1) →
    (∀ p ∈ pre, p.1.isGenesis = false) →
    m1.td = tds1.foldl max meta.td := by
  induction pre with
  | nil =>
    intro st meta st1 m1 tds1 h _
    simp only [runPuts, Except.ok.injEq, Prod.mk.injEq] at h
    rw [← h.2.1, ← h.2.2]
    rfl
  | cons p rest ih =>
    intro st meta st1 m1 tds1 h hng
    obtain ⟨b, isG⟩ := p
    simp only [runPuts] at h
    cases hp : putBlockModel validate st meta b isG fuel with
    | error e =>
      try rw [hp] at h
      simp [Except.bind] at h
    | ok r =>
      obtain ⟨ops, meta1⟩ := r
      try rw [hp] at h
      simp only [Except.bind] at h
      cases hrec : runPuts validate fuel (applyOps st ops) meta1 rest with
      | error e =>
        try rw [hrec] at h
        simp [Except.bind] at h
      | ok r2 =>
        obtain ⟨st2, m2, tds⟩ := r2
        try rw [hrec] at h
        simp only [Except.bind, Except.ok.injEq, Prod.mk.injEq] at h
        obtain ⟨-, h2, h3⟩ := h
        have hstep : meta1.td = max meta.td (tdOfOps ops) :=
          putBlockModel_td_max validate st meta b isG fuel ops meta1 hp
            (hng (b, isG) (List.mem_cons_self _ _))
        have hih : m2.td = tds.foldl max meta1.td :=
          ih (applyOps st ops) meta1 st2 m2 tds hrec
            (fun q hq => hng q (List.mem_cons_of_mem _ hq))
        rw [← h2, ← h3, List.foldl_cons, hih, hstep]

/-- C2 (amended): over any successful sequence of non-genesis puts, at
every point of the run — i.e. after any `pre` of a split `pre ++ suf` —
the Meta State total difficulty equals the maximum of its initial value
and the total difficulties recorded for the blocks ingested so far. -/
theorem c2_rawHead_td_max (validate : Bool) (fuel : Nat) (st : Stores) (meta : MetaState)
    (pre suf : List (Block × Bool))
    (hok : (runPuts validate fuel st meta (pre ++ suf)).isOk = true)
    (hng : ∀ p ∈ pre ++ suf, p.1.isGenesis = false) :
    ∃ st1 m1 tds1, runPuts validate fuel st meta pre = .ok (st1, m1, tds1) ∧
      m1.td = tds1.foldl max meta.td := by
  obtain ⟨st1, m1, tds1, h1⟩ := runPuts_take_ok validate fuel pre suf st meta hok
  exact ⟨st1, m1, tds1, h1,
    runPuts_ok_td_max validate fuel pre st meta st1 m1 tds1 h1
      (fun p hp => hng p (List.mem_append_left _ hp))⟩

/-- C2 witness: one successful non-genesis put of `aBlock` on top of the
genesis state reaches `meta.td = max 10 15`. -/
theorem c2_rawHead_td_max_witness :
    ∃ st1 m1 tds1, runPuts false 3 stG metaG [(aBlock, false)] = .ok (st1, m1, tds1) ∧
      m1.td = tds1.foldl max metaG.td :=
  c2_rawHead_td_max false 3 stG metaG [(aBlock, false)] [] (by decide) (by decide)

/-- C2 counterexample: the run genesis G (difficulty 10), child A (total
15), then a second genesis put G2 (difficulty 3) succeeds, records total
difficulties [10, 15, 3], and ends with `meta.td = 3`: the head's total
difficulty is *not* the maximum (15) of all ingested blocks, because a
genesis put wins the fork-choice unconditionally. -/
theorem c2_rawHead_td_max_counterexample :
    (runPuts false 4 stEmpty meta0 [(gBlock, true), (aBlock, false), (g2Block, true)]).toOption.map
        (fun r => (r.2.1.td, r.2.2)) = some (3, [10, 15, 3])
    ∧ (3 : Nat) < 15 := by
  exact ⟨by decide, by decide⟩

/-- C3 counterexample: `getBlock` reads the block store without waiting on
the Init Gate (`Blockchain.prototype.getBlock` has no `_initLock.await`),
so not every public operation blocks until bootstrap completes. -/
theorem c3_initGate_counterexample : awaitsInitGate PublicOp.getBlock = false := rfl

/-- C3 (amended): exactly `putGenesis`, `putBlock`, `putBlocks` (all through
`putBlock`'s gate), `getHead` and `iterate` wait on the Init Gate before
touching the stores; `getBlock`, `getBlocks`, `getDetails`, `putDetails`,
`selectNeededHashes` and `delBlock` proceed immediately. -/
theorem c3_initGate_table (op : PublicOp) :
    awaitsInitGate op =
      decide (op = PublicOp.putGenesis ∨ op = PublicOp.putBlock ∨ op = PublicOp.putBlocks ∨
        op = PublicOp.getHead ∨ op = PublicOp.iterate) := by
  cases op <;> rfl

/-- C5 (code bug): `selectNeededHashes` on the spec's own example — five
hashes, the first three stored — does not return the suffix `[h4, h5]`:
the loop body calls the nonexistent `getBlockInfo` method and throws on
its first iteration, whatever the stores contain. -/
theorem c5_selectNeededHashes_throws :
    selectNeededHashes [1, 2, 3, 4, 5] =
      .error "TypeError: self.getBlockInfo is not a function" := rfl

/-- Detail record of block B (hash 2): canonical, child C (hash 3), one
stale child S (hash 4). -/
def bDetails : Details :=
  { parent := 1, td := 20, number := 1, child := some 3, staleChildren := [4],
    genesis := false, inChain := true, markers := [] }

/-- Detail record of block C (hash 3): B's canonical child, the tip. -/
def cDetails : Details :=
  { parent := 2, td := 30, number := 2, child := none, staleChildren := [],
    genesis := false, inChain := true, markers := [] }

/-- Detail record of block S (hash 4): B's stale (non-canonical) child. -/
def sDetails : Details :=
  { parent := 2, td := 25, number := 2, child := none, staleChildren := [],
    genesis := false, inChain := false, markers := [] }

/-- Block B. -/
def bBlk : Block :=
  { hash := 2, parentHash := 1, number := 1, difficulty := 10, isGenesis := false }

/-- Block C. -/
def cBlk : Block :=
  { hash := 3, parentHash := 2, number := 2, difficulty := 10, isGenesis := false }

/-- Block S. -/
def sBlk : Block :=
  { hash := 4, parentHash := 2, number := 2, difficulty := 5, isGenesis := false }

/-- Stores holding the chain G(1) → B(2) → C(3) with stale sibling S(4). -/
def stDel : Stores :=
  { details := fun h =>
      if h = 1 then some gDetails
      else if h = 2 then some bDetails
      else if h = 3 then some cDetails
      else if h = 4 then some sDetails
      else none,
    numberIndex := fun n =>
      if n = 0 then some 1 else if n = 1 then some 2 else if n = 2 then some 3 else none,
    blocks := fun k =>
      if k = BlockKey.bin 1 then some gBlock
      else if k = BlockKey.bin 2 then some bBlk
      else if k = BlockKey.bin 3 then some cBlk
      else if k = BlockKey.bin 4 then some sBlk
      else none,
    metaRec := none }

/-- Meta for `stDel`: C is the head. -/
def metaDel : MetaState :=
  { heads := [], rawHead := some 3, height := some 2, td := 30, genesis := some 1 }

/-- C4 (code bug): `delBlock(B)` on the concrete subtree B → {C, S}:
`rawHead` is reset to B's parent (1) and the detail records of B and C are
deleted, but S's detail record survives — the recursion reads the
misspelled `staleChildern` property, which is undefined — and B's encoded
block is still stored under its binary key, because the staged delete used
the hex-string key. -/
theorem c4_delBlock_bug :
    (delBlockModel stDel metaDel 2 5).toOption.map (fun r =>
        (r.2.rawHead, (r.1.details 2).isSome, (r.1.details 3).isSome,
         (r.1.details 4).isSome, (r.1.blocks (BlockKey.bin 2)).isSome)) =
      some (some 1, false, false, true, true) := by decide

/-- C10: `getHead` serves the block at `heads[name]` when that head is
recorded, otherwise the block at `rawHead`; it fails with exactly
`No head found.` when neither hash is set; and the name defaults to `vm`
when omitted. -/
theorem c10_getHead (st : Stores) (meta : MetaState) (name : String) :
    (∀ h b, headsGet meta.heads name = some h → st.blocks (BlockKey.bin h) = some b →
        getHeadModel st meta name = .ok b)
    ∧ (∀ h b, headsGet meta.heads name = none → meta.rawHead = some h →
        st.blocks (BlockKey.bin h) = some b → getHeadModel st meta name = .ok b)
    ∧ (getHeadModel st meta name = .error "No head found." ↔
        headsGet meta.heads name = none ∧ meta.rawHead = none)
    ∧ getHeadDefaultName st meta = getHeadModel st meta "vm" := by
  refine ⟨?_, ?_, ?_, rfl⟩
  · intro h b h1 h2
    unfold getHeadModel
    rw [h1]
    simp [Option.orElse, getBlockByHashBin, h2]
  · intro h b h1 h2 h3
    unfold getHeadModel
    rw [h1, h2]
    simp [Option.orElse, getBlockByHashBin, h3]
  · constructor
    · intro hE
      unfold getHeadModel at hE
      cases h1 : headsGet meta.heads name with
      | some v =>
        rw [h1] at hE
        simp only [Option.orElse, getBlockByHashBin] at hE
        cases h2 : st.blocks (BlockKey.bin v) with
        | some b => rw [h2] at hE; simp at hE
        | none => rw [h2] at hE; simp at hE
      | none =>
        rw [h1] at hE
        cases h2 : meta.rawHead with
        | some v =>
          rw [h2] at hE
          simp only [Option.orElse, getBlockByHashBin] at hE
          cases h3 : st.blocks (BlockKey.bin v) with
          | some b => rw [h3] at hE; simp at hE
          | none => rw [h3] at hE; simp at hE
        | none => refine ⟨?_, ?_⟩ <;> simp_all
    · rintro ⟨h1, h2⟩
      unfold getHeadModel
      rw [h1, h2]
      rfl

/-- C10 witness: with `heads.vm = 1` recorded and the genesis block stored
under that hash, `getHead` returns it. -/
theorem c10_getHead_witness : getHeadModel stG { heads := [("vm", 1)] } "vm" = .ok gBlock :=
  (c10_getHead stG { heads := [("vm", 1)] } "vm").1 1 gBlock rfl rfl

/-- The empty delivery list satisfies the reorg contract. -/
theorem reorgFlagsOk_nil : reorgFlagsOk [] := by
  constructor
  · intro x hx
    simp at hx
  · intro k x y hx hy
    simp at hx

/-- Appending one delivery whose flag is computed against the previously
delivered block preserves the reorg contract. -/
theorem reorgFlagsOk_append (acc : List (Block × Bool)) (b : Block) (lastB : Option Block)
    (hacc : reorgFlagsOk acc) (hlast : lastB = (acc.getLast?).map Prod.fst) :
    reorgFlagsOk (acc ++ [(b, match lastB with
      | some lb => decide (lb.hash ≠ b.parentHash)
      | none => false)]) := by
  obtain ⟨h0, hadj⟩ := hacc
  constructor
  · intro x hx
    cases acc with
    | nil =>
      simp only [List.nil_append, List.get?] at hx
      cases hx
      simp only [List.getLast?, Option.map] at hlast
      rw [hlast]
    | cons a l =>
      rw [List.get?_append (by simp)] at hx
      exact h0 x hx
  · intro k x y hx hy
    by_cases hk : k + 1 < acc.length
    · rw [List.get?_append hk] at hy
      rw [List.get?_append (Nat.lt_of_succ_lt hk)] at hx
      exact hadj k x y hx hy
    · by_cases hk2 : k + 1 = acc.length
      · rw [hk2, List.get?_concat_length] at hy
        cases hy
        rw [List.get?_append (by omega)] at hx
        have hxl : acc.getLast? = some x := by
          rw [List.getLast?_eq_get?]
          have hlen : acc.length - 1 = k := by omega
          rw [hlen]
          exact hx
        rw [hxl] at hlast
        simp only [Option.map] at hlast
        rw [hlast]
      · have : (acc ++ [(b, match lastB with
            | some lb => decide (lb.hash ≠ b.parentHash)
            | none => false)]).get? (k + 1) = none := by
          rw [List.get?_eq_none]
          simp only [List.length_append, List.length_singleton]
          omega
        rw [this] at hy
        cases hy

/-- Along the iterator loop, deliveries accumulated against the running
`lastBlock` satisfy the reorg contract whenever the loop finishes. -/
theorem iterLoop_reorg (name : String) :
    ∀ fuel st meta lastB acc bh out,
      iterLoop name fuel st meta lastB acc bh = some out →
      reorgFlagsOk acc → lastB = (acc.getLast?).map Prod.fst →
      reorgFlagsOk out.2.2 := by
  intro fuel
  induction fuel with
  | zero =>
    intro st meta lastB acc bh out h _ _
    cases bh <;> simp [iterLoop] at h
  | succ fuel ih =>
    intro st meta lastB acc bh out h hacc hlast
    cases bh with
    | none =>
      simp only [iterLoop, Option.some.injEq] at h
      rw [← h]
      exact hacc
    | some v =>
      simp only [iterLoop] at h
      cases hd : st.details v with
      | none =>
        try rw [hd] at h
        simp only [Option.some.injEq] at h
        rw [← h]
        exact hacc
      | some d =>
        try rw [hd] at h
        simp only at h
        cases hb : st.blocks (BlockKey.bin v) with
        | none =>
          try rw [hb] at h
          simp only [Option.some.injEq] at h
          rw [← h]
          exact hacc
        | some b =>
          try rw [hb] at h
          simp only at h
          refine ih _ _ _ _ _ _ h ?_ ?_
          · exact reorgFlagsOk_append acc b lastB hacc hlast
          · simp [List.getLast?_concat]

/-- C9: over any finished iterator run, the reorg flag of the first
delivered block is `false`, and the flag of each later delivery is `true`
exactly when the previously delivered block's hash differs from the
current block's recorded parent hash. -/
theorem c9_iterate_reorg (st : Stores) (meta : MetaState) (name : String) (fuel : Nat)
    (ds : List (Block × Bool))
    (h : iterDeliveries (iteratorModel st meta name fuel) = some ds) :
    reorgFlagsOk ds := by
  unfold iteratorModel at h
  cases hs : (headsGet meta.heads name).orElse (fun _ => meta.genesis) with
  | none =>
    try rw [hs] at h
    simp only [iterDeliveries, Option.some.injEq] at h
    rw [← h]
    exact reorgFlagsOk_nil
  | some h0 =>
    try rw [hs] at h
    unfold iteratorStart at h
    cases hd : st.details h0 with
    | none =>
      simp only [hd, iterDeliveries] at h
      exact Option.noConfusion h
    | some d =>
      simp only [hd] at h
      cases hl : iterLoop name fuel st meta none [] d.child with
      | none =>
        simp only [hl, Option.map_none', iterDeliveries] at h
        exact Option.noConfusion h
      | some out =>
        obtain ⟨st1, m1, ds1⟩ := out
        simp only [hl, Option.map_some', iterDeliveries, Option.some.injEq] at h
        rw [← h]
        exact iterLoop_reorg name fuel st meta none [] d.child (st1, m1, ds1) hl
          reorgFlagsOk_nil rfl

/-- The last block of the concrete iterator chain: stored under hash 3 but
recording parent 99, so its delivery must carry `reorg = true`. -/
def blkR : Block :=
  { hash := 3, parentHash := 99, number := 2, difficulty := 10, isGenesis := false }

/-- Stores for the concrete iterator run 1 → 2 → 3. -/
def stIter : Stores :=
  { details := fun h =>
      if h = 1 then some { gDetails with child := some 2 }
      else if h = 2 then some bDetails
      else if h = 3 then some cDetails
      else none,
    numberIndex := fun _ => none,
    blocks := fun k =>
      if k = BlockKey.bin 2 then some bBlk
      else if k = BlockKey.bin 3 then some blkR
      else none,
    metaRec := none }

/-- Meta for the concrete iterator run: no recorded head, genesis 1. -/
def metaIter : MetaState := { heads := [], genesis := some 1 }

/-- C9 witness: the concrete run delivers `(bBlk, false)` then
`(blkR, true)` — the second flag is set because `bBlk.hash = 2` differs
from `blkR.parentHash = 99` — and the contract holds of that list. -/
theorem c9_iterate_reorg_witness : reorgFlagsOk [(bBlk, false), (blkR, true)] :=
  c9_iterate_reorg stIter metaIter "vm" 5 [(bBlk, false), (blkR, true)] rfl

/-- `getBlocksLoop` never surfaces an error: every outcome within fuel is a
success (`cb(null, blocks)`). -/
theorem getBlocksLoop_no_error (st : Stores) (maxBlocks skip : Nat) (reverse : Bool) :
    ∀ fuel tag blocks i e,
      getBlocksLoop st maxBlocks skip reverse fuel tag blocks i ≠ some (.error e) := by
  intro fuel
  induction fuel with
  | zero =>
    intro tag blocks i e h
    simp [getBlocksLoop] at h
  | succ fuel ih =>
    intro tag blocks i e h
    simp only [getBlocksLoop] at h
    cases hg : getBlockModel st tag with
    | error e2 =>
      simp only [hg] at h
      simp at h
    | ok block =>
      simp only [hg] at h
      split at h
      · exact ih _ _ _ _ h
      · split at h
        · simp at h
        · exact ih _ _ _ _ h

/-- A failing lookup at the current position ends the walk at once with the
gathered list as a success. -/
theorem getBlocksLoop_stops_at_failure (st : Stores) (maxBlocks skip : Nat) (reverse : Bool)
    (fuel : Nat) (tag : BlockTag) (blocks : List Block) (i : Nat) (e : String)
    (hfail : getBlockModel st tag = .error e) :
    getBlocksLoop st maxBlocks skip reverse (fuel + 1) tag blocks i = some (.ok blocks) := by
  simp only [getBlocksLoop, hfail]

/-- Distance arithmetic for the skip counter: a skipped visit decreases the
distance to the next emission by one. -/
theorem distSkipStep (s i : Nat) (hs : s ≠ 0) (hr : i % (s + 1) ≠ 0) :
    (s + 1 - (i + 1) % (s + 1)) % (s + 1) + 1 = (s + 1 - i % (s + 1)) % (s + 1) := by
  have hpos : 0 < s + 1 := Nat.succ_pos s
  have hrlt : i % (s + 1) < s + 1 := Nat.mod_lt _ hpos
  have h1 : (i + 1) % (s + 1) = (i % (s + 1) + 1) % (s + 1) := by
    conv_lhs => rw [Nat.add_mod]
    have h11 : 1 % (s + 1) = 1 := Nat.mod_eq_of_lt (by omega)
    rw [h11]
  by_cases hc : i % (s + 1) = s
  · rw [h1, hc, Nat.mod_self, Nat.sub_zero, Nat.mod_self]
    have h2 : s + 1 - s = 1 := by omega
    rw [h2, Nat.mod_eq_of_lt (by omega)]
  · have hlt : i % (s + 1) + 1 < s + 1 := by omega
    rw [h1, Nat.mod_eq_of_lt hlt]
    have h2 : s + 1 - (i % (s + 1) + 1) < s + 1 := by omega
    have h3 : s + 1 - i % (s + 1) < s + 1 := by omega
    rw [Nat.mod_eq_of_lt h2, Nat.mod_eq_of_lt h3]
    omega

/-- Distance arithmetic: after an emission the distance to the next one is
`s % (s + 1)` (that is, `s`, or 0 when there is no skipping). -/
theorem distAfterEmit (s i : Nat) (h0 : i % (s + 1) = 0) :
    (s + 1 - (i + 1) % (s + 1)) % (s + 1) = s % (s + 1) := by
  have h1 : (i + 1) % (s + 1) = 1 % (s + 1) := by
    conv_lhs => rw [Nat.add_mod, h0]
    simp
  rw [h1]
  cases s with
  | zero => rfl
  | succ s' =>
    have h11 : (1 : Nat) % (s' + 1 + 1) = 1 := Nat.mod_eq_of_lt (by omega)
    rw [h11]
    have h2 : s' + 1 + 1 - 1 = s' + 1 := by omega
    rw [h2]

/-- Distance arithmetic: at an emission point the distance is zero. -/
theorem distAtEmit (s i : Nat) (h0 : i % (s + 1) = 0) :
    (s + 1 - i % (s + 1)) % (s + 1) = 0 := by
  rw [h0, Nat.sub_zero, Nat.mod_self]

/-- With every lookup succeeding, the walk stops with exactly `maxBlocks`
collected blocks, within a fuel bound proportional to the remaining
emissions. -/
theorem getBlocksLoop_total_maxCount (st : Stores) (maxBlocks skip : Nat) (reverse : Bool)
    (htotal : ∀ t, (getBlockModel st t).isOk = true) :
    ∀ fuel blocks i tag,
      blocks.length < maxBlocks →
      (maxBlocks - blocks.length - 1) * (skip + 1) +
        (skip + 1 - i % (skip + 1)) % (skip + 1) + 1 ≤ fuel →
      ∃ bs, getBlocksLoop st maxBlocks skip reverse fuel tag blocks i = some (.ok bs) ∧
        bs.length = maxBlocks := by
  intro fuel
  induction fuel with
  | zero =>
    intro blocks i tag _ hfuel
    omega
  | succ fuel ih =>
    intro blocks i tag hlen hfuel
    cases hg : getBlockModel st tag with
    | error e =>
      have hT := htotal tag
      rw [hg] at hT
      simp [Except.isOk, Except.toBool] at hT
    | ok block =>
      simp only [getBlocksLoop, hg]
      by_cases hc : i ≠ 0 ∧ skip ≠ 0 ∧ i % (skip + 1) ≠ 0
      · rw [if_pos hc]
        refine ih blocks (i + 1) _ hlen ?_
        have hd := distSkipStep skip i hc.2.1 hc.2.2
        omega
      · rw [if_neg hc]
        have hr0 : i % (skip + 1) = 0 := by
          by_cases hi : i = 0
          · rw [hi]; exact Nat.zero_mod _
          · by_cases hsk : skip = 0
            · rw [hsk]; exact Nat.mod_one i
            · by_cases hr : i % (skip + 1) = 0
              · exact hr
              · exact absurd ⟨hi, hsk, hr⟩ hc
        by_cases hlen2 : (blocks ++ [block]).length = maxBlocks
        · rw [if_pos hlen2]
          exact ⟨blocks ++ [block], rfl, hlen2⟩
        · rw [if_neg hlen2]
          have hlenc : (blocks ++ [block]).length = blocks.length + 1 := by
            simp
          have hlen' : (blocks ++ [block]).length < maxBlocks := by omega
          refine ih (blocks ++ [block]) (i + 1) _ hlen' ?_
          rw [hlenc]
          have hd1 := distAfterEmit skip i hr0
          have hd0 := distAtEmit skip i hr0
          have hmod : skip % (skip + 1) ≤ skip := Nat.le_of_lt_succ (Nat.mod_lt _ (Nat.succ_pos _))
          have h1 : maxBlocks - blocks.length - 1 = (maxBlocks - blocks.length - 2) + 1 := by
            omega
          have h2 : maxBlocks - (blocks.length + 1) - 1 = maxBlocks - blocks.length - 2 := by
            omega
          rw [h1, Nat.succ_mul] at hfuel
          rw [h2, hd1]
          omega

/-- C6 (amended): (a) `getBlocks` never surfaces an error within any fuel
bound; (b) whenever the current lookup fails it stops at once, returning
the partial list gathered so far as a success; (c) provided `maxCount ≥ 1`,
if every lookup succeeds, it stops after collecting exactly `maxCount`
blocks (within fuel `maxCount * (skip + 1)`).  With `maxCount = 0` and no
failing lookup the walk never stops (see the counterexample). -/
theorem c6_getBlocks_stops (st : Stores) (maxBlocks skip : Nat) (reverse : Bool) :
    (∀ fuel tag blocks i e,
        getBlocksLoop st maxBlocks skip reverse fuel tag blocks i ≠ some (.error e))
    ∧ (∀ fuel tag blocks i e, getBlockModel st tag = .error e →
        getBlocksLoop st maxBlocks skip reverse (fuel + 1) tag blocks i = some (.ok blocks))
    ∧ (1 ≤ maxBlocks → (∀ t, (getBlockModel st t).isOk = true) → ∀ tag,
        ∃ bs, getBlocksModel st tag maxBlocks skip reverse (maxBlocks * (skip + 1)) =
            some (.ok bs) ∧ bs.length = maxBlocks) := by
  refine ⟨getBlocksLoop_no_error st maxBlocks skip reverse,
    fun fuel tag blocks i e h =>
      getBlocksLoop_stops_at_failure st maxBlocks skip reverse fuel tag blocks i e h,
    ?_⟩
  intro hM htotal tag
  refine getBlocksLoop_total_maxCount st maxBlocks skip reverse htotal _ [] 0 tag
    (by simpa using hM) ?_
  simp only [List.length_nil, Nat.sub_zero, Nat.zero_mod, Nat.mod_self]
  have h1 : maxBlocks = (maxBlocks - 1) + 1 := by omega
  conv_rhs => rw [h1, Nat.succ_mul]
  omega

/-- C6 witness: on empty stores the very first lookup of a walk already in
progress fails, and the walk returns the partial list `[bBlk]` gathered so
far as a success. -/
theorem c6_getBlocks_stops_witness :
    getBlocksLoop stEmpty 5 0 false 3 (BlockTag.number 7) [bBlk] 1 = some (.ok [bBlk]) :=
  (c6_getBlocks_stops stEmpty 5 0 false).2.1 2 (BlockTag.number 7) [bBlk] 1
    "NotFoundError" rfl

/-- A block stored everywhere: every hash and every number resolves to it. -/
def bAll : Block :=
  { hash := 0, parentHash := 0, number := 0, difficulty := 0, isGenesis := false }

/-- Stores on which every single-block lookup succeeds. -/
def stAll : Stores :=
  { details := fun _ => none, numberIndex := fun _ => some 0,
    blocks := fun _ => some bAll, metaRec := none }

/-- C6 counterexample: with `maxCount = 0` and every lookup succeeding, the
walk never stops — it does not "stop after collecting maxCount blocks",
because the count check runs only after a push and the list is never again
of length 0. -/
theorem c6_getBlocks_counterexample :
    getBlocksNeverReturns stAll 0 0 false ∧ (∀ t, (getBlockModel stAll t).isOk = true) := by
  constructor
  · intro fuel
    induction fuel with
    | zero => intro tag blocks i; rfl
    | succ fuel ih =>
      intro tag blocks i
      have hg : getBlockModel stAll tag = .ok bAll := by cases tag <;> rfl
      simp only [getBlocksLoop, hg]
      rw [if_neg (by simp)]
      rw [if_neg (by simp)]
      exact ih _ _ _
  · intro t
    cases t <;> rfl

end Blockchain
